import Mathlib

/-!
Verification development for the TagLens media-indexing service.

The Lean definitions below are shallow embeddings of the Python sources:
* `src/scripts/insightface_tagging.py` — face detection/tagging pipeline
  (cosine similarity, tag minting, per-call clustering loop, public payload);
* `src/scripts/database_helper.py` — the photos store (`init_db` triggers,
  `save_photo_to_db`, `save_video_to_db`);
* `src/database.py` / `src/app.py` — the per-user image listing.

Python floats are modelled as exact reals, SQL tables as Lean lists, and
timestamps as naturals (ISO-8601 strings of a fixed format compare
chronologically, so any order-isomorphic embedding is faithful).
-/

namespace TagLens

/-- A face loaded from a stored record's `faces_json`: the dict
`{"tag": ..., "embedding": ...}` built in `detect_and_tag_faces_for_user`. -/
structure KnownFace where
  tag : String
  embedding : List ℝ


/-- A face produced by `_detect_faces_with_insightface`:
`{"x", "y", "w", "h", "embedding"}`. -/
structure DetectedFace where
  x : ℤ
  y : ℤ
  w : ℤ
  h : ℤ
  embedding : List ℝ


/-- A fully tagged face as appended to `tagged_faces` in
`detect_and_tag_faces_for_user`. -/
structure TaggedFace where
  x : ℤ
  y : ℤ
  w : ℤ
  h : ℤ
  tag : String
  embedding : List ℝ


/-- Embedding of `_cosine_similarity` (insightface_tagging.py lines 75-83).
Empty or length-mismatched inputs yield `0.0`, as does a zero norm. -/
noncomputable def cosine_similarity (left right : List ℝ) : ℝ :=
  if left = [] ∨ right = [] ∨ left.length ≠ right.length then 0
  else
    let dot := (List.zipWith (fun a b => a * b) left right).sum
    let left_norm := Real.sqrt ((left.map fun a => a * a).sum)
    let right_norm := Real.sqrt ((right.map fun b => b * b).sum)
    if left_norm = 0 ∨ right_norm = 0 then 0
    else dot / (left_norm * right_norm)

/-- Decimal value of a digit string, as `int()` computes it on a `\d+` match. -/
def digitsVal (cs : List Char) : ℕ :=
  cs.foldl (fun a c => 10 * a + (c.toNat - 48)) 0

/-- Embedding of the regex test `re.match(r"^person_(\d+)$", tag)` in
`_next_face_tag`: returns the integer suffix when the whole tag matches.
`\d` is modelled as the ASCII digits (the only digits the code ever mints). -/
def personSuffix? (tag : String) : Option ℕ :=
  match tag.toList with
  | 'p' :: 'e' :: 'r' :: 's' :: 'o' :: 'n' :: '_' :: rest =>
    if rest ≠ [] ∧ rest.all Char.isDigit then some (digitsVal rest) else none
  | _ => none

/-- The running maximum `max_idx` computed by `_next_face_tag`
(insightface_tagging.py lines 86-93): maximum matched suffix, `0` if none. -/
def maxPersonSuffix (tags : List String) : ℕ :=
  tags.foldl
    (fun m t =>
      match personSuffix? t with
      | some n => max m n
      | none => m)
    0

/-- Embedding of `_next_face_tag`: `f"person_{max_idx + 1}"`.
`known_tags` is a Python set; only its membership matters here, so it is
modelled as a list. -/
def next_face_tag (tags : List String) : String :=
  "person_" ++ Nat.repr (maxPersonSuffix tags + 1)

/-- The fixed threshold `similarity_threshold = 0.45` of
`detect_and_tag_faces_for_user`. -/
noncomputable def similarity_threshold : ℝ := 0.45

/-- One iteration of the best-match scan (lines 156-159): replace the
running best on a strictly greater score. -/
noncomputable def bestStep (embedding : List ℝ) (best : ℝ × String)
    (known : KnownFace) : ℝ × String :=
  let score := cosine_similarity embedding known.embedding
  if best.1 < score then (score, known.tag) else best

/-- The best-match scan of `detect_and_tag_faces_for_user` (lines 153-159):
starting from `best_score = -1.0`, `best_tag = ""`. -/
noncomputable def bestMatch (embedding : List ℝ) (knownFaces : List KnownFace) :
    ℝ × String :=
  knownFaces.foldl (bestStep embedding) (-1, "")

/-- The spec-side notion "maximum cosine similarity between the face's
embedding and the known face embeddings" (claims C1/C2), seeded at the
code's sentinel `-1.0`. -/
noncomputable def maxSim (embedding : List ℝ) (knownFaces : List KnownFace) : ℝ :=
  knownFaces.foldl
    (fun m k => max m (cosine_similarity embedding k.embedding)) (-1)

/-- One face's tag resolution (lines 161-165): reuse the best tag when it is
non-empty and scores at least the threshold, otherwise mint a fresh tag and
add it to the known tag set. Returns the assigned tag and the updated set. -/
noncomputable def resolveTag (knownFaces : List KnownFace) (knownTags : List String)
    (embedding : List ℝ) : String × List String :=
  let best := bestMatch embedding knownFaces
  if best.2 ≠ "" ∧ similarity_threshold ≤ best.1 then (best.2, knownTags)
  else (next_face_tag knownTags, next_face_tag knownTags :: knownTags)

/-- The per-call loop of `detect_and_tag_faces_for_user` (lines 148-176):
faces with an empty embedding are skipped; each processed face's
`(tag, embedding)` pair is appended to `known_faces` before the rest of the
detection list is handled. -/
noncomputable def tagFacesLoop :
    List KnownFace → List String → List DetectedFace → List TaggedFace
  | _, _, [] => []
  | knownFaces, knownTags, face :: rest =>
    if face.embedding = [] then tagFacesLoop knownFaces knownTags rest
    else
      let res := resolveTag knownFaces knownTags face.embedding
      { x := face.x, y := face.y, w := face.w, h := face.h,
        tag := res.1, embedding := face.embedding } ::
        tagFacesLoop (knownFaces ++ [{ tag := res.1, embedding := face.embedding }])
          res.2 rest

/-- A raw detection as returned by the insightface analyzer: the `bbox` and
`normed_embedding` attributes, each possibly missing (`getattr` default).
The numpy-to-float-list conversion succeeds on the analyzer's float arrays,
so embeddings are modelled directly as real lists. -/
structure RawFace where
  bbox : Option (ℤ × ℤ × ℤ × ℤ)
  embedding : Option (List ℝ)

/-- The parse loop of `_detect_faces_with_insightface` (lines 107-123):
skip faces missing a bbox or embedding, clamp coordinates at zero. -/
def parseRawFaces : List RawFace → List DetectedFace
  | [] => []
  | f :: rest =>
    match f.bbox, f.embedding with
    | some (x1, y1, x2, y2), some emb =>
      { x := max 0 x1, y := max 0 y1, w := max 0 (x2 - x1), h := max 0 (y2 - y1),
        embedding := emb } :: parseRawFaces rest
    | some _, none => parseRawFaces rest
    | none, _ => parseRawFaces rest

/-- Embedding of `_detect_faces_with_insightface` (lines 96-104). The
analyzer is `none` when the `FaceAnalysis` import failed; `decoded` is the
result of `cv2.imdecode`, `none` when the bytes are not a decodable image.
Both failure cases return the empty face list. -/
def _detect_faces_with_insightface {Img : Type}
    (analyzer : Option (Img → List RawFace)) (decoded : Option Img) :
    List DetectedFace :=
  match analyzer with
  | none => []
  | some get =>
    match decoded with
    | none => []
    | some img => parseRawFaces (get img)

/-- The known-face loading filter of `detect_and_tag_faces_for_user`
(lines 131-143): faces of the owner's stored images with a non-empty tag and
a non-empty embedding. Stored faces are modelled structurally (the JSON
round-trip and `str(...).strip()` preserve the tags the pipeline writes). -/
def loadKnownFaces (images : List (List KnownFace)) : List KnownFace :=
  images.flatten.filter fun f => !(f.tag == "") && !f.embedding.isEmpty

/-- Embedding of `detect_and_tag_faces_for_user` (lines 126-178): detect
faces, return `[]` when none, otherwise resolve tags against the owner's
known faces (`known_tags` starts as the tags of the loaded known faces). -/
noncomputable def detect_and_tag_faces_for_user {Img : Type}
    (analyzer : Option (Img → List RawFace)) (decoded : Option Img)
    (images : List (List KnownFace)) : List TaggedFace :=
  match _detect_faces_with_insightface analyzer decoded with
  | [] => []
  | d :: ds =>
    let known := loadKnownFaces images
    tagFacesLoop known (known.map KnownFace.tag) (d :: ds)

/-- What one ingestion call persists for future calls: each tagged face's
`(tag, embedding)` pair, re-loaded from the stored `faces_json` on the next
call. -/
def storedOfTagged (faces : List TaggedFace) : List KnownFace :=
  faces.map fun tf => { tag := tf.tag, embedding := tf.embedding }

/-- The per-owner corpora reachable through the tagging pipeline: starting
from no stored images, each ingestion call appends one image holding the
faces the call tagged. A distinct owner has its own independent corpus —
`detect_and_tag_faces_for_user` reads nothing else. -/
inductive ReachableCorpus : List (List KnownFace) → Prop
  | nil : ReachableCorpus []
  | ingest {imgs : List (List KnownFace)} {Img : Type}
      (analyzer : Option (Img → List RawFace)) (decoded : Option Img) :
      ReachableCorpus imgs →
      ReachableCorpus
        (imgs ++ [storedOfTagged
          (detect_and_tag_faces_for_user analyzer decoded imgs)])

/-! ### Public faces payload (`public_faces_payload`, `_safe_parse_faces`) -/

/-- A JSON value, the possible results of `json.loads` on the stored
`faces_json` string. Numbers are modelled as integers (no claim depends on
fractional values); object keys are unique as in a Python dict. -/
inductive JValue where
  | null
  | bool (b : Bool)
  | num (n : ℤ)
  | str (s : String)
  | arr (items : List JValue)
  | obj (fields : List (String × JValue))

/-- Python `dict.get(key, default)` on a JSON object. -/
def jGet (fields : List (String × JValue)) (key : String) (dflt : JValue) : JValue :=
  match fields.find? (fun p => p.1 == key) with
  | some p => p.2
  | none => dflt

/-- Python `int(s)` on a string: optional sign followed by digits, else a
`ValueError`. Surrounding whitespace and underscore separators, which Python
also accepts, are not modelled — no stored tag data contains them. -/
def strToInt? (s : String) : Option ℤ :=
  match s.toList with
  | [] => none
  | '-' :: rest =>
    if rest ≠ [] ∧ rest.all Char.isDigit then some (-(digitsVal rest : ℤ)) else none
  | '+' :: rest =>
    if rest ≠ [] ∧ rest.all Char.isDigit then some (digitsVal rest) else none
  | cs => if cs.all Char.isDigit then some (digitsVal cs) else none

/-- Python `int(v)` on a JSON value: succeeds on numbers, booleans and
integer-literal strings; raises (`none`) on `None`, lists and dicts. -/
def pyInt : JValue → Option ℤ
  | .num n => some n
  | .bool b => some (if b then 1 else 0)
  | .str s => strToInt? s
  | .null => none
  | .arr _ => none
  | .obj _ => none

/-- Python `str(v)`: total, never raises. Container rendering is modelled
coarsely (no claim inspects it); scalars follow Python. -/
def pyStr : JValue → String
  | .null => "None"
  | .bool true => "True"
  | .bool false => "False"
  | .num n => toString n
  | .str s => s
  | .arr _ => "\x7b list \x7d"
  | .obj _ => "\x7b dict \x7d"

/-- Embedding of `_safe_parse_faces` (insightface_tagging.py lines 19-24),
taking the outcome of `json.loads` (`none` = `TypeError`/`ValueError`):
a parse failure or a non-list parse yields `[]`. -/
def _safe_parse_faces (parsed : Option JValue) : List JValue :=
  match parsed with
  | some (.arr items) => items
  | some _ => []
  | none => []

/-- The public projection of one face dict built by `public_faces_payload`:
exactly the keys `x`, `y`, `w`, `h` (integers) and `tag` (string). -/
structure PublicFace where
  x : ℤ
  y : ℤ
  w : ℤ
  h : ℤ
  tag : String
deriving Repr, DecidableEq

/-- One comprehension element of `public_faces_payload` (lines 30-36):
`none` when one of the `int(...)` coercions raises. -/
def publicFaceOfObj (fields : List (String × JValue)) : Option PublicFace :=
  match pyInt (jGet fields "x" (.num 0)), pyInt (jGet fields "y" (.num 0)),
      pyInt (jGet fields "w" (.num 0)), pyInt (jGet fields "h" (.num 0)) with
  | some x, some y, some w, some h =>
    some { x := x, y := y, w := w, h := h, tag := pyStr (jGet fields "tag" (.str "")) }
  | _, _, _, _ => none

/-- The list comprehension of `public_faces_payload`: non-dict elements are
filtered out; a failing `int(...)` coercion on a dict element raises,
aborting the whole call (`Except.error`). -/
def buildPayload : List JValue → Except Unit (List PublicFace)
  | [] => .ok []
  | .obj fields :: rest =>
    match publicFaceOfObj fields, buildPayload rest with
    | some f, .ok out => .ok (f :: out)
    | _, _ => .error ()
  | .null :: rest => buildPayload rest
  | .bool _ :: rest => buildPayload rest
  | .num _ :: rest => buildPayload rest
  | .str _ :: rest => buildPayload rest
  | .arr _ :: rest => buildPayload rest

/-- Embedding of `public_faces_payload` (lines 27-39), from the `json.loads`
outcome of the input string. -/
def public_faces_payload (parsed : Option JValue) : Except Unit (List PublicFace) :=
  buildPayload (_safe_parse_faces parsed)

/-! ### The photos store (`database_helper.py`) -/

/-- The `metadata` dict consumed by `save_photo_to_db` (lines 121-156). -/
structure PhotoMeta where
  user_id : ℕ
  filepath : String
  size : ℚ
  w : Option ℤ
  h : Option ℤ
  make : Option String
  model : Option String
  date : Option String
  iso : Option ℤ
  f_stop : Option ℚ
  shutter : Option String
  focal : Option ℚ
  lat : Option ℚ
  lon : Option ℚ
  loc_description : Option String
  loc_city : Option String
  loc_state : Option String
  loc_country : Option String
  caption : Option String
  ocr : Option String

/-- A row of the `photos` master table (init_db lines 18-37). -/
structure PhotoRow where
  photo_id : ℕ
  user_id : ℕ
  filepath : String
  is_photo : Bool
  file_size_mb : ℚ
  width : Option ℤ
  height : Option ℤ
  make : Option String
  model : Option String
  taken_at : Option String
  iso : Option ℤ
  f_stop : Option ℚ
  shutter_speed : Option String
  focal_length : Option ℚ
  latitude : Option ℚ
  longitude : Option ℚ
  loc_description : Option String
  loc_city : Option String
  loc_state : Option String
  loc_country : Option String
  caption : Option String
  ocr_text : Option String

/-- A row of the `photos_fts` keyword index (init_db lines 51-63). -/
structure FtsEntry where
  rowid : ℕ
  loc_description : Option String
  loc_city : Option String
  loc_state : Option String
  loc_country : Option String
  caption : Option String
  ocr_text : Option String
  user_id : ℕ

/-- A row of the `photos_vec` vector index (init_db lines 66-72). -/
structure VecEntry where
  photo_id : ℕ
  user_id : ℕ
  embedding : List ℝ

/-- A row of the `user_stats` table (init_db lines 75-81). -/
structure StatsRow where
  user_id : ℕ
  photo_count : ℕ
  video_count : ℕ
deriving Repr, DecidableEq

/-- The four synchronized structures plus the AUTOINCREMENT counter. -/
structure Store where
  nextId : ℕ
  photos : List PhotoRow
  fts : List FtsEntry
  vec : List VecEntry
  stats : List StatsRow

/-- `init_db` seeds `sqlite_sequence` with 99999, so the first identity is
100000 (init_db lines 41-45). -/
def initStore : Store :=
  { nextId := 100000, photos := [], fts := [], vec := [], stats := [] }

/-- The `increment_photo_count` trigger (init_db lines 94-103): upsert the
owner's row, starting it at `(1, 0)` on first sight. -/
def upsertPhotoCount : List StatsRow → ℕ → List StatsRow
  | [], uid => [{ user_id := uid, photo_count := 1, video_count := 0 }]
  | r :: rs, uid =>
    if r.user_id = uid then
      { r with photo_count := r.photo_count + 1 } :: rs
    else r :: upsertPhotoCount rs uid

/-- The `increment_video_count` trigger (init_db lines 106-115): upsert the
owner's row, starting it at `(0, 1)` on first sight. -/
def upsertVideoCount : List StatsRow → ℕ → List StatsRow
  | [], uid => [{ user_id := uid, photo_count := 0, video_count := 1 }]
  | r :: rs, uid =>
    if r.user_id = uid then
      { r with video_count := r.video_count + 1 } :: rs
    else r :: upsertVideoCount rs uid

/-- The `photos_ai` trigger payload (init_db lines 84-91): the derived text
bag keyed by the new row's identity. -/
def ftsEntryOfRow (row : PhotoRow) : FtsEntry :=
  { rowid := row.photo_id, loc_description := row.loc_description,
    loc_city := row.loc_city, loc_state := row.loc_state,
    loc_country := row.loc_country, caption := row.caption,
    ocr_text := row.ocr_text, user_id := row.user_id }

/-- The master-table row inserted by `save_photo_to_db` (`is_photo`
hardcoded to `True`). -/
def photoRowOfMeta (id : ℕ) (m : PhotoMeta) : PhotoRow :=
  { photo_id := id, user_id := m.user_id, filepath := m.filepath,
    is_photo := true, file_size_mb := m.size, width := m.w, height := m.h,
    make := m.make, model := m.model, taken_at := m.date, iso := m.iso,
    f_stop := m.f_stop, shutter_speed := m.shutter, focal_length := m.focal,
    latitude := m.lat, longitude := m.lon,
    loc_description := m.loc_description, loc_city := m.loc_city,
    loc_state := m.loc_state, loc_country := m.loc_country,
    caption := m.caption, ocr_text := m.ocr }

/-- Embedding of `save_photo_to_db` (database_helper.py lines 121-181):
one transaction inserting the master row — which fires the `photos_ai` FTS
trigger and the `increment_photo_count` trigger, both with `is_photo = 1` —
and the vector-index row for the externally computed caption embedding. -/
def save_photo_to_db (s : Store) (m : PhotoMeta) (embedding : List ℝ) : Store :=
  let row := photoRowOfMeta s.nextId m
  { nextId := s.nextId + 1,
    photos := s.photos ++ [row],
    fts := s.fts ++ [ftsEntryOfRow row],
    vec := s.vec ++ [{ photo_id := row.photo_id, user_id := m.user_id,
                       embedding := embedding }],
    stats := upsertPhotoCount s.stats m.user_id }

/-- The master-table row inserted by `save_video_to_db`: `is_photo` is
`False` and every optical/location/caption/OCR field is `None`
(database_helper.py lines 197-219). -/
def videoRowOf (id uid : ℕ) (filepath : String) (size : ℚ) : PhotoRow :=
  { photo_id := id, user_id := uid, filepath := filepath, is_photo := false,
    file_size_mb := size, width := none, height := none, make := none,
    model := none, taken_at := none, iso := none, f_stop := none,
    shutter_speed := none, focal_length := none, latitude := none,
    longitude := none, loc_description := none, loc_city := none,
    loc_state := none, loc_country := none, caption := none, ocr_text := none }

/-- Embedding of `save_video_to_db` (database_helper.py lines 184-239):
inserts the master row only. With `is_photo = 0` the FTS trigger does not
fire, the `increment_video_count` trigger does, and there is no embedding
or vector logic. -/
def save_video_to_db (s : Store) (uid : ℕ) (filepath : String) (size : ℚ) : Store :=
  { nextId := s.nextId + 1,
    photos := s.photos ++ [videoRowOf s.nextId uid filepath size],
    fts := s.fts,
    vec := s.vec,
    stats := upsertVideoCount s.stats uid }

/-- Modelled from the spec: no delete helper for the photos store exists in
`src` (the delete route in `app.py` removes only the separate `images` row),
so deletion is modelled from §4.1, `delete(id, owner_id) -> bool` — true iff
a row was removed. `init_db` declares no delete triggers, so only the
`photos` row is removed. -/
def delete_photo (s : Store) (pid uid : ℕ) : Bool × Store :=
  let remaining := s.photos.filter fun r => !(r.photo_id == pid && r.user_id == uid)
  (remaining.length != s.photos.length, { s with photos := remaining })

/-- A logical write against the store. -/
inductive StoreOp where
  | insertPhoto (m : PhotoMeta) (embedding : List ℝ)
  | insertVideo (uid : ℕ) (filepath : String) (size : ℚ)
  | deleteRow (pid uid : ℕ)

/-- Apply one write. -/
def applyOp (s : Store) : StoreOp → Store
  | .insertPhoto m e => save_photo_to_db s m e
  | .insertVideo uid fp size => save_video_to_db s uid fp size
  | .deleteRow pid uid => (delete_photo s pid uid).2

/-- The store state after a sequence of writes against a fresh database. -/
def runOps (ops : List StoreOp) : Store :=
  ops.foldl applyOp initStore

/-- `photo_count` read back for an owner (0 when the row was never
initialized; `user_id` is the primary key, so the first row is the row). -/
def photoCountOf : List StatsRow → ℕ → ℕ
  | [], _ => 0
  | r :: rs, uid => if r.user_id = uid then r.photo_count else photoCountOf rs uid

/-- `video_count` read back for an owner. -/
def videoCountOf : List StatsRow → ℕ → ℕ
  | [], _ => 0
  | r :: rs, uid => if r.user_id = uid then r.video_count else videoCountOf rs uid

/-! ### Per-user image listing (`Database.list_images_for_user`) -/

/-- A row of the `images` table of `src/database.py` restricted to the
fields the listing touches. Timestamps are modelled as naturals: the stored
ISO-8601 strings of a fixed format compare chronologically. -/
structure ImageRecord where
  id : ℕ
  user_id : Option ℕ
  filename : String
  created_at : ℕ
  taken_at : Option ℕ

/-- Modelled from the spec: the `sort_by=taken` key of
`Database.list_images_for_user`, which is absent from `src/database.py`
(only its callers and tests are present). §4.1: records with an absent
`taken_at` sort as if their value were the creation timestamp. -/
def takenSortKey (r : ImageRecord) : ℕ :=
  r.taken_at.getD r.created_at

/-- Modelled from the spec: the listing order — the requested direction on
the sort key, ties broken by identity ascending for determinism (§4.1). -/
def recordOrder (key : ImageRecord → ℕ) (asc : Bool) (a b : ImageRecord) : Prop :=
  (if asc then key a < key b else key b < key a) ∨ (key a = key b ∧ a.id ≤ b.id)

instance (key : ImageRecord → ℕ) (asc : Bool) : DecidableRel (recordOrder key asc) :=
  fun a b => by unfold recordOrder; exact inferInstance

/-- Modelled from the spec: `Database.list_images_for_user(user_id, sort_by,
order)` — the owner's rows (ownership scoping), sorted by the requested key
with the §4.1 fallback and identity tiebreak. -/
def list_images_for_user (rows : List ImageRecord) (uid : ℕ)
    (sortByTaken : Bool) (asc : Bool) : List ImageRecord :=
  let key : ImageRecord → ℕ :=
    if sortByTaken then takenSortKey else fun r => r.created_at
  List.insertionSort (recordOrder key asc)
    (rows.filter fun r => r.user_id == some uid)

/-! ### Auxiliary predicates and sample inputs used by the claims -/

/-- Whether a write is a photo insert for the given owner. -/
def isPhotoInsertFor (uid : ℕ) : StoreOp → Bool
  | .insertPhoto m _ => m.user_id == uid
  | _ => false

/-- Whether a write is a video insert for the given owner. -/
def isVideoInsertFor (uid : ℕ) : StoreOp → Bool
  | .insertVideo u _ _ => u == uid
  | _ => false

/-- Whether a write is a deletion. -/
def StoreOp.isDel : StoreOp → Bool
  | .deleteRow _ _ => true
  | _ => false

/-- The "optical/caption/embedding fields" of a master-table row, i.e.
every column `save_video_to_db` sets to `None`. -/
def videoFieldsAbsent (row : PhotoRow) : Prop :=
  row.width = none ∧ row.height = none ∧ row.make = none ∧ row.model = none ∧
  row.taken_at = none ∧ row.iso = none ∧ row.f_stop = none ∧
  row.shutter_speed = none ∧ row.focal_length = none ∧ row.latitude = none ∧
  row.longitude = none ∧ row.loc_description = none ∧ row.loc_city = none ∧
  row.loc_state = none ∧ row.loc_country = none ∧ row.caption = none ∧
  row.ocr_text = none

/-- A concrete photo metadata record (owner 1, everything optional absent),
used by the concrete counterexample states. -/
def demoMeta : PhotoMeta :=
  { user_id := 1, filepath := "p.jpg", size := 0, w := none, h := none,
    make := none, model := none, date := none, iso := none, f_stop := none,
    shutter := none, focal := none, lat := none, lon := none,
    loc_description := none, loc_city := none, loc_state := none,
    loc_country := none, caption := none, ocr := none }

/-! ## Lemmas about the stats triggers -/

theorem photoCountOf_upsertPhotoCount (stats : List StatsRow) (uid uid' : ℕ) :
    photoCountOf (upsertPhotoCount stats uid) uid' =
      photoCountOf stats uid' + (if uid = uid' then 1 else 0) := by
  induction stats with
  | nil =>
    by_cases h : uid = uid' <;> simp [upsertPhotoCount, photoCountOf, h]
  | cons r rs ih =>
    by_cases h : r.user_id = uid
    · by_cases h2 : r.user_id = uid'
      · have huu : uid = uid' := by rw [h] at h2; exact h2
        simp [upsertPhotoCount, photoCountOf, h, h2, huu]
      · have huu : ¬uid = uid' := by rw [h] at h2; exact h2
        simp [upsertPhotoCount, photoCountOf, h, h2, huu]
    · by_cases h2 : r.user_id = uid'
      · have huu : ¬uid = uid' := by intro e; rw [e] at h; exact h h2
        have huu2 : ¬uid' = uid := fun e => huu e.symm
        simp [upsertPhotoCount, photoCountOf, h, h2, huu, huu2]
      · simpa [upsertPhotoCount, photoCountOf, h, h2] using ih

theorem videoCountOf_upsertPhotoCount (stats : List StatsRow) (uid uid' : ℕ) :
    videoCountOf (upsertPhotoCount stats uid) uid' = videoCountOf stats uid' := by
  induction stats with
  | nil =>
    by_cases h : uid = uid' <;> simp [upsertPhotoCount, videoCountOf, h]
  | cons r rs ih =>
    by_cases h : r.user_id = uid
    · by_cases h2 : r.user_id = uid'
      · simp [upsertPhotoCount, videoCountOf, h, h2, ih]
      · simp [upsertPhotoCount, videoCountOf, h, h2, ih]
    · by_cases h2 : r.user_id = uid'
      · have huu2 : ¬uid' = uid := by intro e; rw [← e] at h; exact h h2
        simp [upsertPhotoCount, videoCountOf, h, h2, huu2, ih]
      · simp [upsertPhotoCount, videoCountOf, h, h2, ih]

theorem photoCountOf_upsertVideoCount (stats : List StatsRow) (uid uid' : ℕ) :
    photoCountOf (upsertVideoCount stats uid) uid' = photoCountOf stats uid' := by
  induction stats with
  | nil =>
    by_cases h : uid = uid' <;> simp [upsertVideoCount, photoCountOf, h]
  | cons r rs ih =>
    by_cases h : r.user_id = uid
    · by_cases h2 : r.user_id = uid'
      · simp [upsertVideoCount, photoCountOf, h, h2, ih]
      · simp [upsertVideoCount, photoCountOf, h, h2, ih]
    · by_cases h2 : r.user_id = uid'
      · have huu2 : ¬uid' = uid := by intro e; rw [← e] at h; exact h h2
        simp [upsertVideoCount, photoCountOf, h, h2, huu2, ih]
      · simp [upsertVideoCount, photoCountOf, h, h2, ih]

theorem videoCountOf_upsertVideoCount (stats : List StatsRow) (uid uid' : ℕ) :
    videoCountOf (upsertVideoCount stats uid) uid' =
      videoCountOf stats uid' + (if uid = uid' then 1 else 0) := by
  induction stats with
  | nil =>
    by_cases h : uid = uid' <;> simp [upsertVideoCount, videoCountOf, h]
  | cons r rs ih =>
    by_cases h : r.user_id = uid
    · by_cases h2 : r.user_id = uid'
      · have huu : uid = uid' := by rw [h] at h2; exact h2
        simp [upsertVideoCount, videoCountOf, h, h2, huu]
      · have huu : ¬uid = uid' := by rw [h] at h2; exact h2
        simp [upsertVideoCount, videoCountOf, h, h2, huu]
    · by_cases h2 : r.user_id = uid'
      · have huu : ¬uid = uid' := by intro e; rw [e] at h; exact h h2
        have huu2 : ¬uid' = uid := fun e => huu e.symm
        simp [upsertVideoCount, videoCountOf, h, h2, huu, huu2]
      · simpa [upsertVideoCount, videoCountOf, h, h2] using ih

theorem counts_after_foldl (ops : List StoreOp) : ∀ (s : Store) (uid : ℕ),
    photoCountOf (ops.foldl applyOp s).stats uid =
      photoCountOf s.stats uid + (ops.filter (isPhotoInsertFor uid)).length ∧
    videoCountOf (ops.foldl applyOp s).stats uid =
      videoCountOf s.stats uid + (ops.filter (isVideoInsertFor uid)).length := by
  induction ops with
  | nil => intro s uid; simp
  | cons op ops ih =>
    intro s uid
    rw [List.foldl_cons]
    obtain ⟨ihp, ihv⟩ := ih (applyOp s op) uid
    rw [ihp, ihv]
    cases op with
    | insertPhoto m e =>
      have hs : (applyOp s (StoreOp.insertPhoto m e)).stats =
          upsertPhotoCount s.stats m.user_id := rfl
      rw [hs, photoCountOf_upsertPhotoCount, videoCountOf_upsertPhotoCount]
      by_cases hm : m.user_id = uid
      · simp [isPhotoInsertFor, isVideoInsertFor, List.filter_cons, hm]
        omega
      · simp [isPhotoInsertFor, isVideoInsertFor, List.filter_cons, hm]
    | insertVideo u fp size =>
      have hs : (applyOp s (StoreOp.insertVideo u fp size)).stats =
          upsertVideoCount s.stats u := rfl
      rw [hs, photoCountOf_upsertVideoCount, videoCountOf_upsertVideoCount]
      by_cases hm : u = uid
      · simp [isPhotoInsertFor, isVideoInsertFor, List.filter_cons, hm]
        omega
      · simp [isPhotoInsertFor, isVideoInsertFor, List.filter_cons, hm]
    | deleteRow pid u =>
      have hs : (applyOp s (StoreOp.deleteRow pid u)).stats = s.stats := rfl
      rw [hs]
      simp [isPhotoInsertFor, isVideoInsertFor, List.filter_cons]

/-- C5: the stats counters track inserts but are never decremented: in the
state reached by any write sequence, `photo_count` (resp. `video_count`)
equals the number of photo (resp. video) inserts ever performed for the
owner — not the number of non-deleted rows; each insert increments exactly
one counter, initializing the row on first sight, and deletion leaves the
stats table unchanged. -/
theorem claim_C5_stats_track_inserts_only :
    (∀ (ops : List StoreOp) (uid : ℕ),
      photoCountOf (runOps ops).stats uid =
        (ops.filter (isPhotoInsertFor uid)).length ∧
      videoCountOf (runOps ops).stats uid =
        (ops.filter (isVideoInsertFor uid)).length) ∧
    (∀ (s : Store) (m : PhotoMeta) (e : List ℝ) (uid : ℕ),
      photoCountOf (save_photo_to_db s m e).stats uid =
        photoCountOf s.stats uid + (if m.user_id = uid then 1 else 0) ∧
      videoCountOf (save_photo_to_db s m e).stats uid =
        videoCountOf s.stats uid) ∧
    (∀ (s : Store) (u : ℕ) (fp : String) (size : ℚ) (uid : ℕ),
      videoCountOf (save_video_to_db s u fp size).stats uid =
        videoCountOf s.stats uid + (if u = uid then 1 else 0) ∧
      photoCountOf (save_video_to_db s u fp size).stats uid =
        photoCountOf s.stats uid) ∧
    (∀ (s : Store) (pid uid : ℕ), (delete_photo s pid uid).2.stats = s.stats) := by
  refine ⟨fun ops uid => ?_, fun s m e uid => ?_, fun s u fp size uid => ?_,
    fun s pid uid => rfl⟩
  · obtain ⟨hp, hv⟩ := counts_after_foldl ops initStore uid
    constructor
    · rw [runOps, hp]; simp [initStore, photoCountOf]
    · rw [runOps, hv]; simp [initStore, videoCountOf]
  · exact ⟨by simp [save_photo_to_db, photoCountOf_upsertPhotoCount],
      by simp [save_photo_to_db, videoCountOf_upsertPhotoCount]⟩
  · exact ⟨by simp [save_video_to_db, videoCountOf_upsertVideoCount],
      by simp [save_video_to_db, photoCountOf_upsertVideoCount]⟩

/-- C5 counterexample: insert one photo for owner 1 and then delete it.
The claimed invariant "photo_count equals the number of non-deleted Photo
records" fails: the counter still reads 1 while no photo row remains,
because `init_db` declares no delete trigger on `user_stats`. -/
theorem claim_C5_counterexample :
    photoCountOf
        (runOps [StoreOp.insertPhoto demoMeta [], StoreOp.deleteRow 100000 1]).stats
        1 = 1 ∧
    ((runOps [StoreOp.insertPhoto demoMeta [], StoreOp.deleteRow 100000 1]).photos.filter
        (fun r => r.user_id == 1 && r.is_photo)).length = 0 := by
  constructor <;> rfl

/-- C6: deletion is not symmetric with insertion. The boolean result is true
iff a metadata row was removed, but the KeywordIndex (`photos_fts`),
VectorIndex (`photos_vec`) and UserStats rows are left untouched — `init_db`
declares no delete triggers, so index rows can reference removed records. -/
theorem claim_C6_delete_not_symmetric (s : Store) (pid uid : ℕ) :
    ((delete_photo s pid uid).1 = true ↔
      ∃ r ∈ s.photos, r.photo_id = pid ∧ r.user_id = uid) ∧
    (delete_photo s pid uid).2.fts = s.fts ∧
    (delete_photo s pid uid).2.vec = s.vec ∧
    (delete_photo s pid uid).2.stats = s.stats ∧
    (delete_photo s pid uid).2.photos =
      s.photos.filter fun r => !(r.photo_id == pid && r.user_id == uid) := by
  refine ⟨?_, rfl, rfl, rfl, rfl⟩
  rw [delete_photo]
  simp only [bne_iff_ne, ne_eq]
  constructor
  · intro h
    by_contra hc
    push_neg at hc
    apply h
    apply List.filter_length_eq_length.mpr
    intro r hr
    simp only [Bool.not_eq_eq_eq_not, Bool.not_true, Bool.and_eq_false_iff,
      beq_eq_false_iff_ne, ne_eq]
    by_cases hpid : r.photo_id = pid
    · exact Or.inr fun huid => hc r hr hpid huid
    · exact Or.inl hpid
  · intro ⟨r, hr, hpid, huid⟩ hlen
    have := List.filter_length_eq_length.mp hlen r hr
    simp [hpid, huid] at this

/-- C6 counterexample: insert one photo (owner 1, identity 100000), then
delete it. The delete reports success and removes the metadata row, yet the
keyword-index entry, the vector-index entry and the stats contribution for
identity 100000 all remain. -/
theorem claim_C6_counterexample :
    (delete_photo (save_photo_to_db initStore demoMeta []) 100000 1).1 = true ∧
    (delete_photo (save_photo_to_db initStore demoMeta []) 100000 1).2.photos.length
      = 0 ∧
    ((delete_photo (save_photo_to_db initStore demoMeta []) 100000 1).2.fts.map
      FtsEntry.rowid) = [100000] ∧
    ((delete_photo (save_photo_to_db initStore demoMeta []) 100000 1).2.vec.map
      VecEntry.photo_id) = [100000] ∧
    photoCountOf
      (delete_photo (save_photo_to_db initStore demoMeta []) 100000 1).2.stats 1
      = 1 := by
  refine ⟨rfl, rfl, rfl, rfl, rfl⟩

theorem store_indexes_live_after_inserts (ops : List StoreOp)
    (hnd : ∀ op ∈ ops, op.isDel = false) : ∀ s : Store,
    (∀ e ∈ s.fts, ∃ row ∈ s.photos, row.photo_id = e.rowid ∧ row.is_photo = true) →
    (∀ v ∈ s.vec, ∃ row ∈ s.photos, row.photo_id = v.photo_id ∧ row.is_photo = true) →
    ((∀ e ∈ (ops.foldl applyOp s).fts, ∃ row ∈ (ops.foldl applyOp s).photos,
        row.photo_id = e.rowid ∧ row.is_photo = true) ∧
      (∀ v ∈ (ops.foldl applyOp s).vec, ∃ row ∈ (ops.foldl applyOp s).photos,
        row.photo_id = v.photo_id ∧ row.is_photo = true)) := by
  induction ops with
  | nil => intro s hf hv; exact ⟨hf, hv⟩
  | cons op ops ih =>
    intro s hf hv
    have hnd' : ∀ o ∈ ops, o.isDel = false := fun o ho => hnd o (List.mem_cons_of_mem _ ho)
    rw [List.foldl_cons]
    cases op with
    | insertPhoto m e =>
      refine ih hnd' _ ?_ ?_
      · intro en hen
        simp only [applyOp, save_photo_to_db, List.mem_append, List.mem_singleton]
          at hen ⊢
        rcases hen with hen | hen
        · obtain ⟨row, hrow, h1, h2⟩ := hf en hen
          exact ⟨row, Or.inl hrow, h1, h2⟩
        · subst hen
          exact ⟨photoRowOfMeta s.nextId m, Or.inr rfl, rfl, rfl⟩
      · intro v hvv
        simp only [applyOp, save_photo_to_db, List.mem_append, List.mem_singleton]
          at hvv ⊢
        rcases hvv with hvv | hvv
        · obtain ⟨row, hrow, h1, h2⟩ := hv v hvv
          exact ⟨row, Or.inl hrow, h1, h2⟩
        · subst hvv
          exact ⟨photoRowOfMeta s.nextId m, Or.inr rfl, rfl, rfl⟩
    | insertVideo u fp size =>
      refine ih hnd' _ ?_ ?_
      · intro en hen
        simp only [applyOp, save_video_to_db] at hen ⊢
        obtain ⟨row, hrow, h1, h2⟩ := hf en hen
        exact ⟨row, List.mem_append_left _ hrow, h1, h2⟩
      · intro v hvv
        simp only [applyOp, save_video_to_db] at hvv ⊢
        obtain ⟨row, hrow, h1, h2⟩ := hv v hvv
        exact ⟨row, List.mem_append_left _ hrow, h1, h2⟩
    | deleteRow pid u =>
      have : StoreOp.isDel (StoreOp.deleteRow pid u) = false :=
        hnd _ (List.mem_cons_self _ _)
      simp [StoreOp.isDel] at this

/-- C7: keyword and vector index entries exist only for photo records: a
photo insert creates, in the same transaction, the keyword-index entry keyed
by the new identity and the vector-index entry; a video insert creates
neither and leaves every optical/caption field of its row absent — so after
any delete-free write sequence every index entry points at a photo row. -/
theorem claim_C7_indexes_only_for_photos :
    (∀ (ops : List StoreOp), (∀ op ∈ ops, op.isDel = false) →
      (∀ e ∈ (runOps ops).fts, ∃ row ∈ (runOps ops).photos,
        row.photo_id = e.rowid ∧ row.is_photo = true) ∧
      (∀ v ∈ (runOps ops).vec, ∃ row ∈ (runOps ops).photos,
        row.photo_id = v.photo_id ∧ row.is_photo = true) ∧
      (∀ row ∈ (runOps ops).photos, row.is_photo = false →
        videoFieldsAbsent row)) ∧
    (∀ (s : Store) (m : PhotoMeta) (e : List ℝ),
      (save_photo_to_db s m e).fts =
        s.fts ++ [ftsEntryOfRow (photoRowOfMeta s.nextId m)] ∧
      (ftsEntryOfRow (photoRowOfMeta s.nextId m)).rowid = s.nextId ∧
      (save_photo_to_db s m e).vec =
        s.vec ++ [{ photo_id := s.nextId, user_id := m.user_id, embedding := e }]) ∧
    (∀ (s : Store) (u : ℕ) (fp : String) (size : ℚ),
      (save_video_to_db s u fp size).fts = s.fts ∧
      (save_video_to_db s u fp size).vec = s.vec ∧
      (save_video_to_db s u fp size).photos =
        s.photos ++ [videoRowOf s.nextId u fp size] ∧
      videoFieldsAbsent (videoRowOf s.nextId u fp size)) := by
  refine ⟨fun ops hnd => ?_, fun s m e => ⟨rfl, rfl, rfl⟩,
    fun s u fp size => ⟨rfl, rfl, rfl, ?_⟩⟩
  · obtain ⟨h1, h2⟩ := store_indexes_live_after_inserts ops hnd initStore
      (by intro e he; simp [initStore] at he)
      (by intro v hv; simp [initStore] at hv)
    refine ⟨h1, h2, ?_⟩
    clear h1 h2
    rw [runOps]
    generalize hs : initStore = s0
    have hbase : ∀ row ∈ s0.photos, row.is_photo = false → videoFieldsAbsent row := by
      intro row hrow
      rw [← hs] at hrow
      simp [initStore] at hrow
    clear hs
    induction ops generalizing s0 with
    | nil => exact hbase
    | cons op ops ih =>
      have hnd' : ∀ o ∈ ops, o.isDel = false :=
        fun o ho => hnd o (List.mem_cons_of_mem _ ho)
      rw [List.foldl_cons]
      cases op with
      | insertPhoto m e =>
        refine ih hnd' _ ?_
        intro row hrow hfalse
        simp only [applyOp, save_photo_to_db, List.mem_append,
          List.mem_singleton] at hrow
        rcases hrow with hrow | hrow
        · exact hbase row hrow hfalse
        · subst hrow; simp [photoRowOfMeta] at hfalse
      | insertVideo u fp size =>
        refine ih hnd' _ ?_
        intro row hrow hfalse
        simp only [applyOp, save_video_to_db, List.mem_append,
          List.mem_singleton] at hrow
        rcases hrow with hrow | hrow
        · exact hbase row hrow hfalse
        · subst hrow
          exact ⟨rfl, rfl, rfl, rfl, rfl, rfl, rfl, rfl, rfl, rfl, rfl, rfl,
            rfl, rfl, rfl, rfl, rfl⟩
      | deleteRow pid u =>
        have : StoreOp.isDel (StoreOp.deleteRow pid u) = false :=
          hnd _ (List.mem_cons_self _ _)
        simp [StoreOp.isDel] at this
  · exact ⟨rfl, rfl, rfl, rfl, rfl, rfl, rfl, rfl, rfl, rfl, rfl, rfl, rfl,
      rfl, rfl, rfl, rfl⟩

/-- C7 witness: the delete-free hypothesis discharged on a concrete write
sequence (one photo, one video). -/
theorem claim_C7_witness :
    (∀ op ∈ [StoreOp.insertPhoto demoMeta [], StoreOp.insertVideo 2 "v.mp4" 0],
        op.isDel = false) ∧
    ((∀ e ∈ (runOps [StoreOp.insertPhoto demoMeta [],
          StoreOp.insertVideo 2 "v.mp4" 0]).fts,
        ∃ row ∈ (runOps [StoreOp.insertPhoto demoMeta [],
          StoreOp.insertVideo 2 "v.mp4" 0]).photos,
        row.photo_id = e.rowid ∧ row.is_photo = true) ∧
      (∀ v ∈ (runOps [StoreOp.insertPhoto demoMeta [],
          StoreOp.insertVideo 2 "v.mp4" 0]).vec,
        ∃ row ∈ (runOps [StoreOp.insertPhoto demoMeta [],
          StoreOp.insertVideo 2 "v.mp4" 0]).photos,
        row.photo_id = v.photo_id ∧ row.is_photo = true) ∧
      (∀ row ∈ (runOps [StoreOp.insertPhoto demoMeta [],
          StoreOp.insertVideo 2 "v.mp4" 0]).photos, row.is_photo = false →
        videoFieldsAbsent row)) := by
  have hnd : ∀ op ∈ [StoreOp.insertPhoto demoMeta [],
      StoreOp.insertVideo 2 "v.mp4" 0], op.isDel = false := by
    intro op hop
    rcases List.mem_cons.mp hop with rfl | hop
    · rfl
    rcases List.mem_cons.mp hop with rfl | hop
    · rfl
    exact absurd hop (List.not_mem_nil op)
  exact ⟨hnd, claim_C7_indexes_only_for_photos.1 _ hnd⟩

/-- C4: an unavailable analyzer (failed `FaceAnalysis` import) or
undecodable image bytes (`cv2.imdecode` returning `None`) makes the tagging
pipeline return the empty face list — the ingestion completes with zero
faces instead of raising. -/
theorem claim_C4_degraded_detector_yields_no_faces {Img : Type}
    (analyzer : Option (Img → List RawFace)) (decoded : Option Img)
    (images : List (List KnownFace))
    (h : analyzer = none ∨ decoded = none) :
    detect_and_tag_faces_for_user analyzer decoded images = [] := by
  have hd : _detect_faces_with_insightface analyzer decoded = [] := by
    rcases h with h | h
    · subst h; rfl
    · subst h
      cases analyzer with
      | none => rfl
      | some g => rfl
  rw [detect_and_tag_faces_for_user, hd]

/-- C4 witness: a missing analyzer on a concrete (decodable) image. -/
theorem claim_C4_witness :
    ((none : Option (Unit → List RawFace)) = none ∨ (some () : Option Unit) = none) ∧
    detect_and_tag_faces_for_user (none : Option (Unit → List RawFace)) (some ())
      [] = [] :=
  ⟨Or.inl rfl,
    claim_C4_degraded_detector_yields_no_faces none (some ()) [] (Or.inl rfl)⟩

/-- C6 witness: the instantiation at a store holding exactly one photo
(owner 1, identity 100000). -/
theorem claim_C6_witness :
    ((delete_photo (save_photo_to_db initStore demoMeta []) 100000 1).1 = true ↔
      ∃ r ∈ (save_photo_to_db initStore demoMeta []).photos,
        r.photo_id = 100000 ∧ r.user_id = 1) ∧
    (delete_photo (save_photo_to_db initStore demoMeta []) 100000 1).2.fts =
      (save_photo_to_db initStore demoMeta []).fts ∧
    (delete_photo (save_photo_to_db initStore demoMeta []) 100000 1).2.vec =
      (save_photo_to_db initStore demoMeta []).vec ∧
    (delete_photo (save_photo_to_db initStore demoMeta []) 100000 1).2.stats =
      (save_photo_to_db initStore demoMeta []).stats ∧
    (delete_photo (save_photo_to_db initStore demoMeta []) 100000 1).2.photos =
      (save_photo_to_db initStore demoMeta []).photos.filter
        fun r => !(r.photo_id == 100000 && r.user_id == 1) :=
  claim_C6_delete_not_symmetric (save_photo_to_db initStore demoMeta []) 100000 1

/-! ## Lemmas about cosine similarity -/

theorem sum_sq_nonneg (l : List ℝ) : 0 ≤ (l.map fun a => a * a).sum := by
  induction l with
  | nil => simp
  | cons a l ih =>
    simp only [List.map_cons, List.sum_cons]
    exact add_nonneg (mul_self_nonneg a) ih

theorem zipWith_mul_self (l : List ℝ) :
    List.zipWith (fun a b => a * b) l l = l.map fun a => a * a := by
  induction l with
  | nil => rfl
  | cons a l ih => simp [ih]

theorem zipWith_mul_sum_eq_range (l : List ℝ) : ∀ r : List ℝ,
    l.length = r.length →
    (List.zipWith (fun a b => a * b) l r).sum =
      ∑ i ∈ Finset.range l.length, l.getD i 0 * r.getD i 0 := by
  induction l with
  | nil => intro r h; simp
  | cons a l ih =>
    intro r h
    cases r with
    | nil => simp at h
    | cons b r =>
      have hlen : l.length = r.length := by simpa using h
      rw [List.zipWith_cons_cons, List.sum_cons, ih r hlen, List.length_cons,
        Finset.sum_range_succ']
      simp [add_comm]

theorem map_sq_sum_eq_range (l : List ℝ) :
    (l.map fun a => a * a).sum =
      ∑ i ∈ Finset.range l.length, l.getD i 0 * l.getD i 0 := by
  rw [← zipWith_mul_self, zipWith_mul_sum_eq_range l l rfl]

theorem cosine_self_eq_one (v : List ℝ) (hv : v ≠ [])
    (hS : (v.map fun a => a * a).sum ≠ 0) : cosine_similarity v v = 1 := by
  have hS0 : 0 ≤ (v.map fun a => a * a).sum := sum_sq_nonneg v
  have hSpos : 0 < (v.map fun a => a * a).sum := lt_of_le_of_ne hS0 (Ne.symm hS)
  have hsqrt : Real.sqrt ((v.map fun a => a * a).sum) ≠ 0 :=
    ne_of_gt (Real.sqrt_pos.mpr hSpos)
  simp only [cosine_similarity]
  rw [if_neg (by simp [hv]), if_neg (by simp [hsqrt]), zipWith_mul_self,
    Real.mul_self_sqrt hS0, div_self hS]

theorem cosine_le_one (v w : List ℝ) : cosine_similarity v w ≤ 1 := by
  by_cases h1 : v = [] ∨ w = [] ∨ v.length ≠ w.length
  · simp only [cosine_similarity, if_pos h1]
    exact zero_le_one
  · push_neg at h1
    obtain ⟨hv, hw, hlen⟩ := h1
    simp only [cosine_similarity]
    rw [if_neg (by simp [hv, hw, hlen])]
    by_cases h2 : Real.sqrt ((v.map fun a => a * a).sum) = 0 ∨
        Real.sqrt ((w.map fun b => b * b).sum) = 0
    · rw [if_pos h2]; exact zero_le_one
    · push_neg at h2
      obtain ⟨hs1, hs2⟩ := h2
      rw [if_neg (by simp [hs1, hs2])]
      have hpos1 : 0 < Real.sqrt ((v.map fun a => a * a).sum) :=
        lt_of_le_of_ne (Real.sqrt_nonneg _) (Ne.symm hs1)
      have hpos2 : 0 < Real.sqrt ((w.map fun b => b * b).sum) :=
        lt_of_le_of_ne (Real.sqrt_nonneg _) (Ne.symm hs2)
      apply div_le_one_of_le₀
      · rw [zipWith_mul_sum_eq_range v w hlen]
        have hCS := Real.sum_mul_le_sqrt_mul_sqrt (Finset.range v.length)
          (fun i => v.getD i 0) (fun i => w.getD i 0)
        simp only [pow_two] at hCS
        calc ∑ i ∈ Finset.range v.length, v.getD i 0 * w.getD i 0 ≤
            Real.sqrt (∑ i ∈ Finset.range v.length, v.getD i 0 * v.getD i 0) *
              Real.sqrt (∑ i ∈ Finset.range v.length, w.getD i 0 * w.getD i 0) :=
              hCS
          _ = Real.sqrt ((v.map fun a => a * a).sum) *
              Real.sqrt ((w.map fun b => b * b).sum) := by
              rw [map_sq_sum_eq_range v, map_sq_sum_eq_range w, hlen]
      · positivity

/-- C9: a non-empty vector of non-zero magnitude has cosine similarity `1.0`
with itself (exactly, in the real-number semantics), and no other vector
scores higher against it, so the vector itself ranks first. -/
theorem claim_C9_self_similarity_is_max (v : List ℝ) (hv : v ≠ [])
    (hS : (v.map fun a => a * a).sum ≠ 0) :
    cosine_similarity v v = 1 ∧
      ∀ w, cosine_similarity v w ≤ cosine_similarity v v := by
  have h1 := cosine_self_eq_one v hv hS
  refine ⟨h1, fun w => ?_⟩
  rw [h1]
  exact cosine_le_one v w

/-- C9 witness: the vector `[1]`. -/
theorem claim_C9_witness :
    ([(1 : ℝ)] ≠ []) ∧ (([(1 : ℝ)].map fun a => a * a).sum ≠ 0) ∧
    (cosine_similarity [(1 : ℝ)] [(1 : ℝ)] = 1 ∧
      ∀ w, cosine_similarity [(1 : ℝ)] w ≤ cosine_similarity [(1 : ℝ)] [(1 : ℝ)]) := by
  have h1 : [(1 : ℝ)] ≠ [] := by simp
  have h2 : ([(1 : ℝ)].map fun a => a * a).sum ≠ 0 := by norm_num
  exact ⟨h1, h2, claim_C9_self_similarity_is_max [1] h1 h2⟩

/-! ## The listing order (C8) -/

theorem recordOrder_total (key : ImageRecord → ℕ) (asc : Bool)
    (a b : ImageRecord) : recordOrder key asc a b ∨ recordOrder key asc b a := by
  unfold recordOrder
  cases asc <;> simp <;> omega

theorem recordOrder_trans (key : ImageRecord → ℕ) (asc : Bool)
    (a b c : ImageRecord) : recordOrder key asc a b → recordOrder key asc b c →
    recordOrder key asc a c := by
  unfold recordOrder
  cases asc <;> simp <;> omega

/-- C8: listing with `sort_by=taken` returns exactly the owner's records
(a permutation of the filter by owner), in the requested direction on the
key "`taken_at`, falling back to `created_at` when absent", with ties broken
by identity ascending; the listing is a pure function of the corpus, so
repeated calls return the same order. -/
theorem claim_C8_taken_sort (rows : List ImageRecord) (uid : ℕ) (asc : Bool) :
    (list_images_for_user rows uid true asc).Perm
      (rows.filter fun r => r.user_id == some uid) ∧
    List.Sorted (recordOrder takenSortKey asc)
      (list_images_for_user rows uid true asc) ∧
    (∀ r ∈ list_images_for_user rows uid true asc, r.user_id = some uid) := by
  have hdef : list_images_for_user rows uid true asc =
      List.insertionSort (recordOrder takenSortKey asc)
        (rows.filter fun r => r.user_id == some uid) := rfl
  rw [hdef]
  letI : IsTotal ImageRecord (recordOrder takenSortKey asc) :=
    ⟨recordOrder_total takenSortKey asc⟩
  letI : IsTrans ImageRecord (recordOrder takenSortKey asc) :=
    ⟨recordOrder_trans takenSortKey asc⟩
  refine ⟨List.perm_insertionSort _ _, List.sorted_insertionSort _ _, ?_⟩
  intro r hr
  have hmem : r ∈ rows.filter (fun r => r.user_id == some uid) :=
    (List.perm_insertionSort _ _).mem_iff.mp hr
  have hfil := List.mem_filter.mp hmem
  simpa using hfil.2

/-! ## Lemmas about the best-match scan and tag minting -/

theorem bestStep_fst (e : List ℝ) (b : ℝ × String) (k : KnownFace) :
    (bestStep e b k).1 = max b.1 (cosine_similarity e k.embedding) := by
  simp only [bestStep]
  split_ifs with h
  · exact (max_eq_right h.le).symm
  · exact (max_eq_left (not_lt.mp h)).symm

theorem bestMatch_fst_eq (e : List ℝ) : ∀ (kf : List KnownFace) (b : ℝ × String),
    (kf.foldl (bestStep e) b).1 =
      kf.foldl (fun m k => max m (cosine_similarity e k.embedding)) b.1 := by
  intro kf
  induction kf with
  | nil => intro b; rfl
  | cons k kf ih =>
    intro b
    rw [List.foldl_cons, List.foldl_cons, ih, bestStep_fst]

theorem le_foldl_simmax (e : List ℝ) : ∀ (kf : List KnownFace) (b : ℝ),
    b ≤ kf.foldl (fun m k => max m (cosine_similarity e k.embedding)) b := by
  intro kf
  induction kf with
  | nil => intro b; exact le_refl b
  | cons k kf ih =>
    intro b
    rw [List.foldl_cons]
    exact le_trans (le_max_left _ _) (ih _)

theorem mem_le_foldl_simmax (e : List ℝ) : ∀ (kf : List KnownFace) (b : ℝ),
    ∀ k ∈ kf, cosine_similarity e k.embedding ≤
      kf.foldl (fun m k => max m (cosine_similarity e k.embedding)) b := by
  intro kf
  induction kf with
  | nil => intro b k hk; simp at hk
  | cons k0 kf ih =>
    intro b k hk
    rw [List.foldl_cons]
    rcases List.mem_cons.mp hk with rfl | hk
    · exact le_trans (le_max_right _ _) (le_foldl_simmax e kf _)
    · exact ih _ k hk

theorem foldl_simmax_lt (e : List ℝ) (s : ℝ) : ∀ (kf : List KnownFace) (b : ℝ),
    b < s → (∀ k ∈ kf, cosine_similarity e k.embedding < s) →
    kf.foldl (fun m k => max m (cosine_similarity e k.embedding)) b < s := by
  intro kf
  induction kf with
  | nil => intro b hb _; exact hb
  | cons k kf ih =>
    intro b hb hall
    rw [List.foldl_cons]
    exact ih _ (max_lt hb (hall k (List.mem_cons_self _ _)))
      fun k2 hk2 => hall k2 (List.mem_cons_of_mem _ hk2)

theorem bestMatch_fold_spec (e : List ℝ) : ∀ (kf : List KnownFace) (b : ℝ × String),
    (kf.foldl (bestStep e) b = b ∧
      ∀ k ∈ kf, cosine_similarity e k.embedding ≤ b.1) ∨
    ∃ k ∈ kf, kf.foldl (bestStep e) b =
      (cosine_similarity e k.embedding, k.tag) := by
  intro kf
  induction kf with
  | nil => intro b; exact Or.inl ⟨rfl, by simp⟩
  | cons k0 kf ih =>
    intro b
    rw [List.foldl_cons]
    by_cases hlt : b.1 < cosine_similarity e k0.embedding
    · have hstep : bestStep e b k0 = (cosine_similarity e k0.embedding, k0.tag) := by
        unfold bestStep; rw [if_pos hlt]
      rcases ih (bestStep e b k0) with ⟨heq, _⟩ | ⟨k, hk, heq⟩
      · exact Or.inr ⟨k0, List.mem_cons_self _ _, by rw [heq, hstep]⟩
      · exact Or.inr ⟨k, List.mem_cons_of_mem _ hk, heq⟩
    · have hstep : bestStep e b k0 = b := by
        unfold bestStep; rw [if_neg hlt]
      rw [hstep]
      rcases ih b with ⟨heq, hall⟩ | ⟨k, hk, heq⟩
      · refine Or.inl ⟨heq, ?_⟩
        intro k hk
        rcases List.mem_cons.mp hk with rfl | hk
        · exact not_lt.mp hlt
        · exact hall k hk
      · exact Or.inr ⟨k, List.mem_cons_of_mem _ hk, heq⟩

theorem next_face_tag_ne_empty (kt : List String) : next_face_tag kt ≠ "" := by
  unfold next_face_tag
  intro h
  have h2 : ("person_" ++ Nat.repr (maxPersonSuffix kt + 1)).length = (0 : ℕ) := by
    rw [h]; rfl
  rw [String.length_append] at h2
  have h3 : ("person_" : String).length = 7 := rfl
  rw [h3] at h2
  omega

theorem resolveTag_fst_ne_empty (kf : List KnownFace) (kt : List String)
    (e : List ℝ) : (resolveTag kf kt e).1 ≠ "" := by
  simp only [resolveTag]
  split_ifs with h
  · exact h.1
  · exact next_face_tag_ne_empty kt

theorem suffix_foldl_ge (kt : List String) : ∀ b : ℕ,
    b ≤ kt.foldl (fun m t =>
        match personSuffix? t with | some n => max m n | none => m) b ∧
    ∀ t ∈ kt, ∀ n, personSuffix? t = some n →
      n ≤ kt.foldl (fun m t =>
        match personSuffix? t with | some n => max m n | none => m) b := by
  induction kt with
  | nil => intro b; exact ⟨le_refl b, by simp⟩
  | cons t0 kt ih =>
    intro b
    cases h0 : personSuffix? t0 with
    | none =>
      obtain ⟨ih1, ih2⟩ := ih b
      refine ⟨?_, ?_⟩
      · simpa [List.foldl_cons, h0] using ih1
      · intro t ht n hn
        rcases List.mem_cons.mp ht with rfl | ht
        · rw [h0] at hn; cases hn
        · simpa [List.foldl_cons, h0] using ih2 t ht n hn
    | some m0 =>
      obtain ⟨ih1, ih2⟩ := ih (max b m0)
      refine ⟨?_, ?_⟩
      · calc b ≤ max b m0 := le_max_left _ _
          _ ≤ _ := by simpa [List.foldl_cons, h0] using ih1
      · intro t ht n hn
        rcases List.mem_cons.mp ht with rfl | ht
        · rw [h0] at hn
          have hm : n = m0 := (Option.some.inj hn).symm
          subst hm
          calc n ≤ max b n := le_max_right _ _
            _ ≤ _ := by simpa [List.foldl_cons, h0] using ih1
        · simpa [List.foldl_cons, h0] using ih2 t ht n hn

theorem suffix_foldl_mem (kt : List String) : ∀ b : ℕ,
    kt.foldl (fun m t =>
      match personSuffix? t with | some n => max m n | none => m) b = b ∨
    ∃ t ∈ kt, personSuffix? t = some (kt.foldl (fun m t =>
      match personSuffix? t with | some n => max m n | none => m) b) := by
  induction kt with
  | nil => intro b; exact Or.inl rfl
  | cons t0 kt ih =>
    intro b
    cases h0 : personSuffix? t0 with
    | none =>
      rcases ih b with heq | ⟨t, ht, heq⟩
      · exact Or.inl (by simpa [List.foldl_cons, h0] using heq)
      · refine Or.inr ⟨t, List.mem_cons_of_mem _ ht, ?_⟩
        simpa [List.foldl_cons, h0] using heq
    | some m0 =>
      rcases ih (max b m0) with heq | ⟨t, ht, heq⟩
      · by_cases hbm : m0 ≤ b
        · refine Or.inl ?_
          simp only [List.foldl_cons, h0]
          rw [heq, max_eq_left hbm]
        · refine Or.inr ⟨t0, List.mem_cons_self _ _, ?_⟩
          simp only [List.foldl_cons, h0]
          rw [heq, max_eq_right (le_of_not_le hbm)]
      · refine Or.inr ⟨t, List.mem_cons_of_mem _ ht, ?_⟩
        simpa [List.foldl_cons, h0] using heq

/-- C1: per detected face with a non-empty embedding, processed first in its
call: every known similarity is at most the maximum; when the maximum
reaches the 0.45 threshold the face gets the tag of a known face achieving
that maximum, and otherwise it gets `person_<m+1>` where `m` is the largest
integer suffix among the owner's known tags matching `person_<integer>`
(0 when none matches). -/
theorem claim_C1_threshold_match_or_mint (kf : List KnownFace)
    (kt : List String) (f : DetectedFace) (rest : List DetectedFace)
    (hkf : ∀ k ∈ kf, k.tag ≠ "") (hf : f.embedding ≠ []) :
    ((tagFacesLoop kf kt (f :: rest)).map TaggedFace.tag).head? =
      some (resolveTag kf kt f.embedding).1 ∧
    (∀ k ∈ kf, cosine_similarity f.embedding k.embedding ≤
      maxSim f.embedding kf) ∧
    ((0.45 : ℝ) ≤ maxSim f.embedding kf →
      ∃ k ∈ kf, cosine_similarity f.embedding k.embedding =
        maxSim f.embedding kf ∧ (resolveTag kf kt f.embedding).1 = k.tag) ∧
    (maxSim f.embedding kf < 0.45 →
      (resolveTag kf kt f.embedding).1 =
        "person_" ++ Nat.repr (maxPersonSuffix kt + 1)) ∧
    (∀ t ∈ kt, ∀ n, personSuffix? t = some n → n ≤ maxPersonSuffix kt) ∧
    (maxPersonSuffix kt = 0 ∨
      ∃ t ∈ kt, personSuffix? t = some (maxPersonSuffix kt)) := by
  have hb1 : (bestMatch f.embedding kf).1 = maxSim f.embedding kf := by
    simpa [bestMatch, maxSim] using bestMatch_fst_eq f.embedding kf (-1, "")
  refine ⟨?_, ?_, ?_, ?_, ?_, ?_⟩
  · simp only [tagFacesLoop]
    rw [if_neg hf]
    rfl
  · intro k hk
    exact mem_le_foldl_simmax f.embedding kf (-1) k hk
  · intro hth
    rcases bestMatch_fold_spec f.embedding kf (-1, "") with ⟨heq, _⟩ | ⟨k, hk, heq⟩
    · exfalso
      have hm : maxSim f.embedding kf = -1 := by
        rw [← hb1]
        show (List.foldl (bestStep f.embedding) (-1, "") kf).1 = -1
        rw [heq]
      rw [hm] at hth
      norm_num at hth
    · have hbm : bestMatch f.embedding kf =
          (cosine_similarity f.embedding k.embedding, k.tag) := heq
      have hcos : cosine_similarity f.embedding k.embedding =
          maxSim f.embedding kf := by
        rw [← hb1, hbm]
      refine ⟨k, hk, hcos, ?_⟩
      unfold resolveTag
      rw [hbm, if_pos]
      constructor
      · exact hkf k hk
      · show similarity_threshold ≤ cosine_similarity f.embedding k.embedding
        rw [hcos]
        exact hth
  · intro hlt
    unfold resolveTag
    rw [if_neg]
    · rfl
    · intro hcond
      have hge := hcond.2
      rw [hb1] at hge
      have h045 : (0.45 : ℝ) ≤ maxSim f.embedding kf := hge
      linarith
  · exact (suffix_foldl_ge kt 0).2
  · exact suffix_foldl_mem kt 0

/-- C1 witness: one known face `person_3` with embedding `[1]`, detected
face with the identical embedding. -/
theorem claim_C1_witness :
    (∀ k ∈ [KnownFace.mk "person_3" [(1 : ℝ)]], k.tag ≠ "") ∧
    (DetectedFace.mk 0 0 1 1 [(1 : ℝ)]).embedding ≠ [] ∧
    (((tagFacesLoop [KnownFace.mk "person_3" [(1 : ℝ)]] ["person_3"]
        [DetectedFace.mk 0 0 1 1 [(1 : ℝ)]]).map TaggedFace.tag).head? =
      some (resolveTag [KnownFace.mk "person_3" [(1 : ℝ)]] ["person_3"]
        (DetectedFace.mk 0 0 1 1 [(1 : ℝ)]).embedding).1 ∧
    (∀ k ∈ [KnownFace.mk "person_3" [(1 : ℝ)]],
      cosine_similarity (DetectedFace.mk 0 0 1 1 [(1 : ℝ)]).embedding
          k.embedding ≤
        maxSim (DetectedFace.mk 0 0 1 1 [(1 : ℝ)]).embedding
          [KnownFace.mk "person_3" [(1 : ℝ)]]) ∧
    ((0.45 : ℝ) ≤ maxSim (DetectedFace.mk 0 0 1 1 [(1 : ℝ)]).embedding
        [KnownFace.mk "person_3" [(1 : ℝ)]] →
      ∃ k ∈ [KnownFace.mk "person_3" [(1 : ℝ)]],
        cosine_similarity (DetectedFace.mk 0 0 1 1 [(1 : ℝ)]).embedding
            k.embedding =
          maxSim (DetectedFace.mk 0 0 1 1 [(1 : ℝ)]).embedding
            [KnownFace.mk "person_3" [(1 : ℝ)]] ∧
        (resolveTag [KnownFace.mk "person_3" [(1 : ℝ)]] ["person_3"]
          (DetectedFace.mk 0 0 1 1 [(1 : ℝ)]).embedding).1 = k.tag) ∧
    (maxSim (DetectedFace.mk 0 0 1 1 [(1 : ℝ)]).embedding
        [KnownFace.mk "person_3" [(1 : ℝ)]] < 0.45 →
      (resolveTag [KnownFace.mk "person_3" [(1 : ℝ)]] ["person_3"]
        (DetectedFace.mk 0 0 1 1 [(1 : ℝ)]).embedding).1 =
        "person_" ++ Nat.repr (maxPersonSuffix ["person_3"] + 1)) ∧
    (∀ t ∈ ["person_3"], ∀ n, personSuffix? t = some n →
      n ≤ maxPersonSuffix ["person_3"]) ∧
    (maxPersonSuffix ["person_3"] = 0 ∨
      ∃ t ∈ ["person_3"],
        personSuffix? t = some (maxPersonSuffix ["person_3"]))) := by
  have hkf : ∀ k ∈ [KnownFace.mk "person_3" [(1 : ℝ)]], k.tag ≠ "" := by
    intro k hk
    rcases List.mem_singleton.mp hk with rfl
    simp
  have hf : (DetectedFace.mk 0 0 1 1 [(1 : ℝ)]).embedding ≠ [] := by simp
  exact ⟨hkf, hf, claim_C1_threshold_match_or_mint _ _ _ _ hkf hf⟩

/-- C2: within one call, the first face's `(tag, embedding)` pair joins the
known set before the second face is processed: whenever the second face is
at least 0.45-similar to the first and strictly more similar to it than to
every previously known face, it is assigned exactly the first face's tag —
including a tag minted moments earlier in the same call. -/
theorem claim_C2_intra_call_tag_reuse (kf : List KnownFace) (kt : List String)
    (f1 f2 : DetectedFace)
    (h1 : f1.embedding ≠ []) (h2 : f2.embedding ≠ [])
    (hsim : (0.45 : ℝ) ≤ cosine_similarity f2.embedding f1.embedding)
    (hbetter : ∀ k ∈ kf, cosine_similarity f2.embedding k.embedding <
      cosine_similarity f2.embedding f1.embedding) :
    (tagFacesLoop kf kt [f1, f2]).map TaggedFace.tag =
      [(resolveTag kf kt f1.embedding).1, (resolveTag kf kt f1.embedding).1] := by
  have hlt : (bestMatch f2.embedding kf).1 <
      cosine_similarity f2.embedding f1.embedding := by
    have hfst := bestMatch_fst_eq f2.embedding kf (-1, "")
    show (List.foldl (bestStep f2.embedding) (-1, "") kf).1 < _
    rw [hfst]
    exact foldl_simmax_lt f2.embedding _ kf (-1) (by linarith) hbetter
  have happ : ∀ kt2 : List String,
      resolveTag (kf ++ [KnownFace.mk (resolveTag kf kt f1.embedding).1
        f1.embedding]) kt2 f2.embedding =
      ((resolveTag kf kt f1.embedding).1, kt2) := by
    intro kt2
    have ht1ne : (resolveTag kf kt f1.embedding).1 ≠ "" :=
      resolveTag_fst_ne_empty kf kt f1.embedding
    generalize hgen : (resolveTag kf kt f1.embedding).1 = t1 at *
    have hbm : bestMatch f2.embedding
        (kf ++ [KnownFace.mk t1 f1.embedding]) =
        (cosine_similarity f2.embedding f1.embedding, t1) := by
      unfold bestMatch
      rw [List.foldl_append]
      show bestStep f2.embedding (bestMatch f2.embedding kf) _ = _
      simp only [bestStep]
      rw [if_pos hlt]
    simp only [resolveTag]
    rw [hbm]
    rw [if_pos ⟨ht1ne, hsim⟩]
  simp only [tagFacesLoop]
  rw [if_neg h1, if_neg h2]
  simp only [List.map_cons, List.map_nil]
  rw [happ]

/-- C2 witness: an empty prior corpus; two faces with the identical
embedding `[1]` — the first mints `person_1`, the second reuses it. -/
theorem claim_C2_witness :
    ((0.45 : ℝ) ≤ cosine_similarity
      (DetectedFace.mk 1 1 1 1 [(1 : ℝ)]).embedding
      (DetectedFace.mk 0 0 1 1 [(1 : ℝ)]).embedding) ∧
    (tagFacesLoop [] []
        [DetectedFace.mk 0 0 1 1 [(1 : ℝ)], DetectedFace.mk 1 1 1 1 [(1 : ℝ)]]).map
        TaggedFace.tag =
      [(resolveTag [] [] (DetectedFace.mk 0 0 1 1 [(1 : ℝ)]).embedding).1,
        (resolveTag [] [] (DetectedFace.mk 0 0 1 1 [(1 : ℝ)]).embedding).1] := by
  have hcos : cosine_similarity [(1 : ℝ)] [(1 : ℝ)] = 1 :=
    cosine_self_eq_one [1] (by simp) (by norm_num)
  have hsim : (0.45 : ℝ) ≤ cosine_similarity
      (DetectedFace.mk 1 1 1 1 [(1 : ℝ)]).embedding
      (DetectedFace.mk 0 0 1 1 [(1 : ℝ)]).embedding := by
    show (0.45 : ℝ) ≤ cosine_similarity [(1 : ℝ)] [(1 : ℝ)]
    rw [hcos]
    norm_num
  refine ⟨hsim, ?_⟩
  exact claim_C2_intra_call_tag_reuse [] [] _ _ (by simp) (by simp)
    hsim (by simp)

/-! ## Reachability of per-owner corpora (C3) -/

theorem tagFacesLoop_tag_closure (P : String → Prop)
    (hmint : ∀ kt, P (next_face_tag kt)) :
    ∀ (ds : List DetectedFace) (kf : List KnownFace) (kt : List String),
      (∀ k ∈ kf, P k.tag) → ∀ tf ∈ tagFacesLoop kf kt ds, P tf.tag := by
  intro ds
  induction ds with
  | nil =>
    intro kf kt hkf tf htf
    simp [tagFacesLoop] at htf
  | cons face rest ih =>
    intro kf kt hkf tf htf
    by_cases hemb : face.embedding = []
    · simp only [tagFacesLoop] at htf
      rw [if_pos hemb] at htf
      exact ih kf kt hkf tf htf
    · simp only [tagFacesLoop] at htf
      rw [if_neg hemb] at htf
      have hres : P (resolveTag kf kt face.embedding).1 := by
        simp only [resolveTag]
        split_ifs with hcond
        · rcases bestMatch_fold_spec face.embedding kf (-1, "")
            with ⟨heq, _⟩ | ⟨k, hk, heq⟩
          · exfalso
            apply hcond.1
            show (List.foldl (bestStep face.embedding) (-1, "") kf).2 = ""
            rw [heq]
          · have hbm : bestMatch face.embedding kf =
                (cosine_similarity face.embedding k.embedding, k.tag) := heq
            show P (bestMatch face.embedding kf).2
            rw [hbm]
            exact hkf k hk
        · exact hmint kt
      rcases List.mem_cons.mp htf with rfl | htf2
      · exact hres
      · refine ih _ _ ?_ tf htf2
        intro k hk
        rcases List.mem_append.mp hk with hk | hk
        · exact hkf k hk
        · rcases List.mem_singleton.mp hk with rfl
          exact hres

theorem reachable_tags_person {c : List (List KnownFace)}
    (h : ReachableCorpus c) :
    ∀ img ∈ c, ∀ f ∈ img, ∃ n : ℕ, f.tag = "person_" ++ Nat.repr n := by
  induction h with
  | nil => simp
  | ingest analyzer decoded hprev ih =>
    intro img himg f hf
    rcases List.mem_append.mp himg with himg | himg
    · exact ih img himg f hf
    · rcases List.mem_singleton.mp himg with rfl
      simp only [storedOfTagged, List.mem_map] at hf
      obtain ⟨tf, htf, hfe⟩ := hf
      rw [← hfe]
      show ∃ n, tf.tag = "person_" ++ Nat.repr n
      revert htf
      unfold detect_and_tag_faces_for_user
      cases hdet : _detect_faces_with_insightface analyzer decoded with
      | nil => intro htf; simp at htf
      | cons d ds =>
        intro htf
        refine tagFacesLoop_tag_closure
          (P := fun t => ∃ n, t = "person_" ++ Nat.repr n)
          (fun kt => ⟨maxPersonSuffix kt + 1, rfl⟩) (d :: ds) _ _ ?_ tf htf
        intro k hk
        have hk2 : k ∈ List.flatten ‹List (List KnownFace)› := by
          exact (List.mem_filter.mp hk).1
        obtain ⟨img2, himg2, hkin⟩ := List.mem_flatten.mp hk2
        exact ih img2 himg2 k hkin

theorem fresh_corpus_first_tag {Img : Type} (img : Img) (x1 y1 x2 y2 : ℤ)
    (E : List ℝ) (hE : E ≠ []) (corpus : List (List KnownFace))
    (hload : loadKnownFaces corpus = []) :
    (detect_and_tag_faces_for_user
        (some fun _ => [RawFace.mk (some (x1, y1, x2, y2)) (some E)])
        (some img) corpus).map TaggedFace.tag = ["person_1"] := by
  have hdet : _detect_faces_with_insightface
      (some fun _ : Img => [RawFace.mk (some (x1, y1, x2, y2)) (some E)])
      (some img) =
      [DetectedFace.mk (max 0 x1) (max 0 y1) (max 0 (x2 - x1))
        (max 0 (y2 - y1)) E] := rfl
  unfold detect_and_tag_faces_for_user
  rw [hdet, hload]
  simp only [tagFacesLoop, List.map_nil]
  rw [if_neg hE]
  simp only [resolveTag, bestMatch, List.foldl_nil]
  rw [if_neg (by simp)]
  simp only [List.map_cons, List.map_nil]
  rfl

/-- C3: tag assignment reads only the owner's own corpus. For any two
owners whose (pipeline-reachable) corpora carry no `person_<integer>` tag,
an upload with the same face embedding `E` yields the tag `person_1` for
both — no collision and no skipped suffix across owners. -/
theorem claim_C3_cross_owner_independence {Img : Type} (img : Img)
    (x1 y1 x2 y2 : ℤ) (E : List ℝ) (hE : E ≠ [])
    (c₁ c₂ : List (List KnownFace))
    (h1 : ReachableCorpus c₁) (h2 : ReachableCorpus c₂)
    (hp1 : ∀ i ∈ c₁, ∀ f ∈ i, ∀ n : ℕ, f.tag ≠ "person_" ++ Nat.repr n)
    (hp2 : ∀ i ∈ c₂, ∀ f ∈ i, ∀ n : ℕ, f.tag ≠ "person_" ++ Nat.repr n) :
    (detect_and_tag_faces_for_user
        (some fun _ => [RawFace.mk (some (x1, y1, x2, y2)) (some E)])
        (some img) c₁).map TaggedFace.tag = ["person_1"] ∧
    (detect_and_tag_faces_for_user
        (some fun _ => [RawFace.mk (some (x1, y1, x2, y2)) (some E)])
        (some img) c₂).map TaggedFace.tag = ["person_1"] := by
  have hload : ∀ (c : List (List KnownFace)), ReachableCorpus c →
      (∀ i ∈ c, ∀ f ∈ i, ∀ n : ℕ, f.tag ≠ "person_" ++ Nat.repr n) →
      loadKnownFaces c = [] := by
    intro c hc hp
    rw [loadKnownFaces, List.filter_eq_nil_iff]
    intro k hk
    obtain ⟨img2, himg2, hkin⟩ := List.mem_flatten.mp hk
    obtain ⟨n, hn⟩ := reachable_tags_person hc img2 himg2 k hkin
    exact absurd hn (hp img2 himg2 k hkin n)
  exact ⟨fresh_corpus_first_tag img x1 y1 x2 y2 E hE c₁ (hload c₁ h1 hp1),
    fresh_corpus_first_tag img x1 y1 x2 y2 E hE c₂ (hload c₂ h2 hp2)⟩

/-- C3 witness: two owners with empty corpora and embedding `[1]`. -/
theorem claim_C3_witness :
    ([(1 : ℝ)] ≠ []) ∧ ReachableCorpus [] ∧
    ((detect_and_tag_faces_for_user
        (some fun _ : Unit => [RawFace.mk (some (0, 0, 1, 1)) (some [(1 : ℝ)])])
        (some ()) []).map TaggedFace.tag = ["person_1"] ∧
      (detect_and_tag_faces_for_user
        (some fun _ : Unit => [RawFace.mk (some (0, 0, 1, 1)) (some [(1 : ℝ)])])
        (some ()) []).map TaggedFace.tag = ["person_1"]) := by
  have hE : [(1 : ℝ)] ≠ [] := by simp
  refine ⟨hE, ReachableCorpus.nil, ?_⟩
  exact claim_C3_cross_owner_independence () 0 0 1 1 [(1 : ℝ)] hE [] []
    ReachableCorpus.nil ReachableCorpus.nil (by simp) (by simp)

/-! ## The public faces payload (C10) -/

theorem publicFaceOfObj_congr (f1 f2 : List (String × JValue))
    (h : ∀ key dflt, key ≠ "embedding" → jGet f1 key dflt = jGet f2 key dflt) :
    publicFaceOfObj f1 = publicFaceOfObj f2 := by
  unfold publicFaceOfObj
  rw [h "x" (JValue.num 0) (by decide), h "y" (JValue.num 0) (by decide),
    h "w" (JValue.num 0) (by decide), h "h" (JValue.num 0) (by decide),
    h "tag" (JValue.str "") (by decide)]

theorem buildPayload_ok (items : List JValue)
    (h : ∀ fl, JValue.obj fl ∈ items →
      (pyInt (jGet fl "x" (JValue.num 0))).isSome = true ∧
      (pyInt (jGet fl "y" (JValue.num 0))).isSome = true ∧
      (pyInt (jGet fl "w" (JValue.num 0))).isSome = true ∧
      (pyInt (jGet fl "h" (JValue.num 0))).isSome = true) :
    buildPayload items = .ok (items.filterMap fun j =>
      match j with
      | .obj fl => publicFaceOfObj fl
      | _ => none) := by
  induction items with
  | nil => rfl
  | cons j rest ih =>
    have hrest := ih fun fl hfl => h fl (List.mem_cons_of_mem _ hfl)
    cases j with
    | obj fl =>
      obtain ⟨hx, hy, hw, hh⟩ := h fl (List.mem_cons_self _ _)
      obtain ⟨x, hx⟩ := Option.isSome_iff_exists.mp hx
      obtain ⟨y, hy⟩ := Option.isSome_iff_exists.mp hy
      obtain ⟨w, hw⟩ := Option.isSome_iff_exists.mp hw
      obtain ⟨h4, hh⟩ := Option.isSome_iff_exists.mp hh
      have hpf : publicFaceOfObj fl = some
          { x := x, y := y, w := w, h := h4,
            tag := pyStr (jGet fl "tag" (JValue.str "")) } := by
        unfold publicFaceOfObj
        rw [hx, hy, hw, hh]
      simp only [buildPayload, hpf, hrest, List.filterMap_cons]
    | null => simpa [buildPayload, List.filterMap_cons] using hrest
    | bool b => simpa [buildPayload, List.filterMap_cons] using hrest
    | num n => simpa [buildPayload, List.filterMap_cons] using hrest
    | str s => simpa [buildPayload, List.filterMap_cons] using hrest
    | arr a => simpa [buildPayload, List.filterMap_cons] using hrest

theorem buildPayload_congr {items1 items2 : List JValue}
    (h : List.Forall₂ (fun j1 j2 => j1 = j2 ∨
      ∃ f1 f2, j1 = JValue.obj f1 ∧ j2 = JValue.obj f2 ∧
        ∀ key dflt, key ≠ "embedding" → jGet f1 key dflt = jGet f2 key dflt)
      items1 items2) :
    buildPayload items1 = buildPayload items2 := by
  induction h with
  | nil => rfl
  | cons hrel htail ih =>
    rename_i a b l1 l2
    rcases hrel with rfl | ⟨f1, f2, rfl, rfl, hfields⟩
    · cases a <;> simp only [buildPayload, ih]
    · simp only [buildPayload, publicFaceOfObj_congr f1 f2 hfields, ih]

/-- C10 counterexample: the claim says `public_faces_payload` is total and
never raises, but a stored face dict whose `"x"` value is JSON `null` makes
`int(face.get("x", 0))` raise a `TypeError`, aborting the whole call. -/
theorem claim_C10_counterexample :
    public_faces_payload (some (JValue.arr [JValue.obj [("x", JValue.null)]])) =
      .error () := rfl

/-- C10 (amended): `public_faces_payload` returns `[]` on a failed parse or
a non-list parse; when every dict element's `x`, `y`, `w`, `h` values are
`int`-coercible it succeeds with exactly one record per dict element,
carrying exactly the keys `x`, `y`, `w`, `h` (integers) and `tag` (string);
and the output never depends on the `"embedding"` entries of the face
dicts. It is, however, not total: a non-coercible coordinate raises. -/
theorem claim_C10_payload_shape_and_embedding_blindness :
    (public_faces_payload none = .ok []) ∧
    (∀ j : JValue, (∀ items, j ≠ JValue.arr items) →
      public_faces_payload (some j) = .ok []) ∧
    (∀ items : List JValue,
      (∀ fl, JValue.obj fl ∈ items →
        (pyInt (jGet fl "x" (JValue.num 0))).isSome = true ∧
        (pyInt (jGet fl "y" (JValue.num 0))).isSome = true ∧
        (pyInt (jGet fl "w" (JValue.num 0))).isSome = true ∧
        (pyInt (jGet fl "h" (JValue.num 0))).isSome = true) →
      public_faces_payload (some (JValue.arr items)) =
        .ok (items.filterMap fun j =>
          match j with
          | .obj fl => publicFaceOfObj fl
          | _ => none)) ∧
    (∀ items1 items2 : List JValue,
      List.Forall₂ (fun j1 j2 => j1 = j2 ∨
        ∃ f1 f2, j1 = JValue.obj f1 ∧ j2 = JValue.obj f2 ∧
          ∀ key dflt, key ≠ "embedding" → jGet f1 key dflt = jGet f2 key dflt)
        items1 items2 →
      public_faces_payload (some (JValue.arr items1)) =
        public_faces_payload (some (JValue.arr items2))) := by
  refine ⟨rfl, ?_, ?_, ?_⟩
  · intro j hj
    cases j with
    | arr items => exact absurd rfl (hj items)
    | null => rfl
    | bool b => rfl
    | num n => rfl
    | str s => rfl
    | obj fl => rfl
  · intro items h
    exact buildPayload_ok items h
  · intro items1 items2 h
    exact buildPayload_congr h

/-- C10 witness: a concrete face dict with coercible coordinates (and an
embedding entry, which the payload ignores). -/
theorem claim_C10_witness :
    (∀ fl, JValue.obj fl ∈ [JValue.obj [("x", JValue.num 4),
        ("tag", JValue.str "person_1"), ("embedding", JValue.arr [])]] →
      (pyInt (jGet fl "x" (JValue.num 0))).isSome = true ∧
      (pyInt (jGet fl "y" (JValue.num 0))).isSome = true ∧
      (pyInt (jGet fl "w" (JValue.num 0))).isSome = true ∧
      (pyInt (jGet fl "h" (JValue.num 0))).isSome = true) ∧
    public_faces_payload (some (JValue.arr [JValue.obj [("x", JValue.num 4),
        ("tag", JValue.str "person_1"), ("embedding", JValue.arr [])]])) =
      .ok ([JValue.obj [("x", JValue.num 4), ("tag", JValue.str "person_1"),
          ("embedding", JValue.arr [])]].filterMap fun j =>
        match j with
        | .obj fl => publicFaceOfObj fl
        | _ => none) := by
  have h : ∀ fl, JValue.obj fl ∈ [JValue.obj [("x", JValue.num 4),
      ("tag", JValue.str "person_1"), ("embedding", JValue.arr [])]] →
      (pyInt (jGet fl "x" (JValue.num 0))).isSome = true ∧
      (pyInt (jGet fl "y" (JValue.num 0))).isSome = true ∧
      (pyInt (jGet fl "w" (JValue.num 0))).isSome = true ∧
      (pyInt (jGet fl "h" (JValue.num 0))).isSome = true := by
    intro fl hfl
    rcases List.mem_singleton.mp hfl with h2
    cases h2
    exact ⟨rfl, rfl, rfl, rfl⟩
  exact ⟨h, claim_C10_payload_shape_and_embedding_blindness.2.2.1 _ h⟩

/-- C8 witness: the instantiation at a concrete two-record corpus of
owner 7 (one record with `taken_at` absent). -/
theorem claim_C8_witness :
    (list_images_for_user [ImageRecord.mk 1 (some 7) "a.jpg" 10 (some 5),
        ImageRecord.mk 2 (some 7) "b.jpg" 11 none] 7 true true).Perm
      ([ImageRecord.mk 1 (some 7) "a.jpg" 10 (some 5),
        ImageRecord.mk 2 (some 7) "b.jpg" 11 none].filter
        fun r => r.user_id == some 7) ∧
    List.Sorted (recordOrder takenSortKey true)
      (list_images_for_user [ImageRecord.mk 1 (some 7) "a.jpg" 10 (some 5),
        ImageRecord.mk 2 (some 7) "b.jpg" 11 none] 7 true true) ∧
    (∀ r ∈ list_images_for_user [ImageRecord.mk 1 (some 7) "a.jpg" 10 (some 5),
        ImageRecord.mk 2 (some 7) "b.jpg" 11 none] 7 true true,
      r.user_id = some 7) :=
  claim_C8_taken_sort [ImageRecord.mk 1 (some 7) "a.jpg" 10 (some 5),
    ImageRecord.mk 2 (some 7) "b.jpg" 11 none] 7 true


end TagLens
